import Mathlib

/-!
Verification of the praise-ledger bot (`hloppy_bot.py`).

The development shallowly embeds the program's data model and operations:

* `Ledger` models `PraiseData.self.data`, a Python dict (insertion-ordered)
  from user id to `{'received': [...], 'given': [...]}`, as an association
  list.  `getUser`/`updateUser` model `defaultdict` access: reading an
  absent key yields the empty user record, writing an absent key inserts
  it at the end.
* Timestamps are modelled as natural numbers counting seconds since a
  local-time epoch that falls on a Monday 00:00:00, so that Python's
  `datetime.weekday()` becomes `(t / 86400) % 7` and
  `replace(hour=0, minute=0, second=0, microsecond=0)` becomes truncation
  to a multiple of 86400.
* `add_praise`, `get_user_weekly_praises`, `get_praise_count`,
  `get_sorted_users`, `save_data`, `load_data` are translated from the
  correspondingly named methods of `PraiseData`; `handle_hloppy_command`
  and `process_praises` from the correspondingly named methods of
  `HloppyBot`, with the Slack-API mention parsing abstracted into the
  already-resolved `mentions` list and `praise_message` string.
* Persistence is modelled down to a JSON value type: `save_data` produces
  a `Json` document, `load_data` consumes a `DataFile` (missing,
  unreadable, or a `Json` content), and `parseSnapshot` models the body of
  the `try` block in `PraiseData.load_data` (the part that can raise).
-/

namespace Hloppy

/-! ## Data model -/

abbrev UserId := String

/-- Seconds since a local-time epoch falling on a Monday 00:00:00. -/
abbrev Timestamp := Nat

def WEEKLY_PRAISE_LIMIT : Nat := 3

def secondsPerDay : Nat := 86400

/-- An element of a user's `received` list:
`{'from_user': ..., 'message': ..., 'timestamp': ...}`. -/
structure ReceivedEntry where
  from_user : UserId
  message : String
  timestamp : Timestamp
deriving DecidableEq, Repr

/-- An element of a user's `given` list:
`{'to_user': ..., 'message': ..., 'timestamp': ...}`. -/
structure GivenEntry where
  to_user : UserId
  message : String
  timestamp : Timestamp
deriving DecidableEq, Repr

/-- One user's value in `self.data`: parallel `received`/`given` lists. -/
structure UserData where
  received : List ReceivedEntry
  given : List GivenEntry
deriving DecidableEq, Repr

/-- The `defaultdict` default: `{'received': [], 'given': []}`. -/
def emptyUserData : UserData := ⟨[], []⟩

/-- `self.data`, an insertion-ordered dict from user id to user data. -/
abbrev Ledger := List (UserId × UserData)

/-- Dict read with `defaultdict` semantics: first binding wins, absent
key reads as the empty record. -/
def getUser : Ledger → UserId → UserData
  | [], _ => emptyUserData
  | (k, ud) :: rest, u => if k = u then ud else getUser rest u

/-- Dict update with `defaultdict` semantics: the first binding of the key
is modified in place; an absent key is inserted at the end (Python dicts
append newly created keys in insertion order). -/
def updateUser : Ledger → UserId → (UserData → UserData) → Ledger
  | [], u, f => [(u, f emptyUserData)]
  | (k, ud) :: rest, u, f =>
    if k = u then (k, f ud) :: rest else (k, ud) :: updateUser rest u f

/-- `user_id in self.data`. -/
def memberUser (d : Ledger) (u : UserId) : Bool :=
  d.any (fun e => e.1 = u)

/-! ## Week arithmetic (`datetime` fragment used by the program) -/

/-- `current_time.weekday()` (Monday = 0). -/
def weekday (t : Timestamp) : Nat := (t / secondsPerDay) % 7

/-- `(current_time - timedelta(days=current_time.weekday())).replace(hour=0,
minute=0, second=0, microsecond=0)`: the most recent Monday 00:00:00. -/
def weekStart (t : Timestamp) : Timestamp :=
  (t / secondsPerDay - weekday t) * secondsPerDay

/-! ## Store operations (`PraiseData`) -/

/-- `PraiseData.add_praise(from_user, to_user, message)` at instant `now`:
appends the mirrored entries to the recipient's `received` list and then to
the sender's `given` list, both with the same timestamp. -/
def add_praise (d : Ledger) (from_user to_user : UserId) (message : String)
    (now : Timestamp) : Ledger :=
  let d1 := updateUser d to_user
    (fun ud => { ud with received := ud.received ++ [⟨from_user, message, now⟩] })
  updateUser d1 from_user
    (fun ud => { ud with given := ud.given ++ [⟨to_user, message, now⟩] })

/-- `PraiseData.get_user_weekly_praises(user_id)` with `datetime.now() = now`:
0 for an absent user, otherwise the number of `given` entries with
`timestamp >= week_start`. -/
def get_user_weekly_praises (d : Ledger) (u : UserId) (now : Timestamp) : Nat :=
  if memberUser d u then
    ((getUser d u).given.filter (fun p => decide (weekStart now ≤ p.timestamp))).length
  else 0

/-- `PraiseData.get_praise_count(user_id)`:
`len(self.data.get(user_id, {}).get('received', []))`. -/
def get_praise_count (d : Ledger) (u : UserId) : Nat :=
  (getUser d u).received.length

/-! ## Ranking (`PraiseData.get_sorted_users`) -/

/-- Insert into the `all_users` set (modelled as a dup-free list). -/
def addUser (s : List UserId) (u : UserId) : List UserId :=
  if u ∈ s then s else s ++ [u]

/-- One iteration of the `for user_id, data in self.data.items()` loop that
collects `all_users`. -/
def collectUsers (s : List UserId) (e : UserId × UserData) : List UserId :=
  let s1 := if e.2.received ≠ [] ∨ e.2.given ≠ [] then addUser s e.1 else s
  let s2 := e.2.given.foldl (fun acc p => addUser acc p.to_user) s1
  e.2.received.foldl (fun acc p => addUser acc p.from_user) s2

/-- The `all_users` set of `get_sorted_users`. -/
def all_users (d : Ledger) : List UserId :=
  d.foldl collectUsers []

/-- `received[uid]`: `len` for a present user, the `defaultdict(int)`
default 0 otherwise. -/
def receivedCount (d : Ledger) (u : UserId) : Nat :=
  if memberUser d u then (getUser d u).received.length else 0

/-- `given[uid]`: `len` for a present user, 0 otherwise. -/
def givenCount (d : Ledger) (u : UserId) : Nat :=
  if memberUser d u then (getUser d u).given.length else 0

/-- `PraiseData.get_sorted_users()`: one `(uid, received, given, total)`
tuple per collected user, sorted descending by total (Python's `sorted` is
a stable merge sort; `reverse=True` on the `x[3]` key is the comparator
`total b ≤ total a`). -/
def get_sorted_users (d : Ledger) : List (UserId × Nat × Nat × Nat) :=
  let stats := (all_users d).map
    (fun uid => (uid, receivedCount d uid, givenCount d uid,
                 receivedCount d uid + givenCount d uid))
  stats.mergeSort (fun a b => Nat.ble b.2.2.2 a.2.2.2)

/-! ## Predicates used to state the invariants -/

/-- Multiplicity of the entry `⟨to_user := v, message := m, timestamp := t⟩`
in `u`'s `given` list. -/
def countGiven (d : Ledger) (u v : UserId) (m : String) (t : Timestamp) : Nat :=
  ((getUser d u).given.filter
    (fun p => decide (p.to_user = v ∧ p.message = m ∧ p.timestamp = t))).length

/-- Multiplicity of the entry `⟨from_user := u, message := m, timestamp := t⟩`
in `v`'s `received` list. -/
def countReceived (d : Ledger) (v u : UserId) (m : String) (t : Timestamp) : Nat :=
  ((getUser d v).received.filter
    (fun p => decide (p.from_user = u ∧ p.message = m ∧ p.timestamp = t))).length

/-- Invariant I1: every `given` entry has a mirror `received` entry with the
same message and timestamp, and vice versa (stated as equality of
multiplicities, which also handles duplicate praises). -/
def SymmetricLedger (d : Ledger) : Prop :=
  ∀ u v m t, countGiven d u v m t = countReceived d v u m t

/-- The dictionary keys of the ledger are pairwise distinct (true of every
Python dict; maintained by all store operations). -/
def NodupKeys (d : Ledger) : Prop :=
  (d.map Prod.fst).Nodup

/-- Membership of `v` in the user universe contributed by one ledger entry
`e`: `e` is a non-empty entry owned by `v`, or some `given` entry of `e`
points to `v`, or some `received` entry of `e` comes from `v`. -/
def contrib (e : UserId × UserData) (v : UserId) : Prop :=
  ((e.2.received ≠ [] ∨ e.2.given ≠ []) ∧ e.1 = v)
    ∨ (∃ p ∈ e.2.given, p.to_user = v)
    ∨ (∃ p ∈ e.2.received, p.from_user = v)

/-! ## Timestamp serialization

`save_data` writes timestamps with `datetime.isoformat()` and `load_data`
reads them back with `datetime.fromisoformat()`, which raises on a string
that is not a valid serialized instant.  We model this pair at the same
level of abstraction — an injective rendering of the instant into a string
with a partial inverse — by printing the second count in decimal. -/

def digitChar (n : Nat) : Char := Char.ofNat (48 + n)

def toDigitsAux : Nat → List Char → List Char
  | 0, acc => acc
  | n + 1, acc => toDigitsAux ((n + 1) / 10) (digitChar ((n + 1) % 10) :: acc)
decreasing_by exact Nat.div_lt_self (Nat.succ_pos n) (by norm_num)

/-- `p['timestamp'].isoformat()`. -/
def isoformat (t : Timestamp) : String :=
  if t = 0 then "0" else ⟨toDigitsAux t []⟩

def digitVal (c : Char) : Option Nat :=
  if 48 ≤ c.toNat ∧ c.toNat ≤ 57 then some (c.toNat - 48) else none

def fromisoformatAux : List Char → Nat → Option Nat
  | [], acc => some acc
  | c :: cs, acc =>
    match digitVal c with
    | some dg => fromisoformatAux cs (acc * 10 + dg)
    | none => none

/-- `datetime.fromisoformat(s)`: `none` models the `ValueError` raised on a
malformed timestamp string. -/
def fromisoformat (s : String) : Option Timestamp :=
  if s.data.isEmpty then none else fromisoformatAux s.data 0

/-- Helper for the round-trip proof: append the decimal digits of `n` to the
accumulator `a` (the value the decoder holds after having consumed the
digits of `n` with `a` already read). -/
def pushNum (a : Nat) : Nat → Nat
  | 0 => a
  | n + 1 => pushNum a ((n + 1) / 10) * 10 + (n + 1) % 10
decreasing_by exact Nat.div_lt_self (Nat.succ_pos n) (by norm_num)

/-! ## The persisted JSON document -/

/-- A JSON value, the result of `json.load` on the data file. -/
inductive Json where
  | null
  | bool (b : Bool)
  | num (n : Int)
  | str (s : String)
  | arr (elems : List Json)
  | obj (fields : List (String × Json))

/-- Python truthiness of a JSON value (`if not data:` in `load_data`). -/
def isFalsy : Json → Bool
  | .null => true
  | .bool b => !b
  | .num n => decide (n = 0)
  | .str s => s.isEmpty
  | .arr elems => elems.isEmpty
  | .obj fields => fields.isEmpty

/-- Dict field access on a parsed JSON object. -/
def getField (fields : List (String × Json)) (k : String) : Option Json :=
  match fields.find? (fun e => decide (e.1 = k)) with
  | some e => some e.2
  | none => none

def encodeReceived (p : ReceivedEntry) : Json :=
  .obj [("from_user", .str p.from_user), ("message", .str p.message),
        ("timestamp", .str (isoformat p.timestamp))]

def encodeGiven (p : GivenEntry) : Json :=
  .obj [("to_user", .str p.to_user), ("message", .str p.message),
        ("timestamp", .str (isoformat p.timestamp))]

def encodeUser (ud : UserData) : Json :=
  .obj [("received", .arr (ud.received.map encodeReceived)),
        ("given", .arr (ud.given.map encodeGiven))]

/-- The filter `if user_data['received'] or user_data['given']` of
`save_data`: only users with at least one non-empty list are persisted. -/
def dropEmpty (d : Ledger) : Ledger :=
  d.filter (fun e => !e.2.received.isEmpty || !e.2.given.isEmpty)

/-- `PraiseData.save_data`: the JSON document written to `DATA_FILE`
(users with two empty lists are dropped; timestamps serialized). -/
def save_data (d : Ledger) : Json :=
  .obj ((dropEmpty d).map (fun e => (e.1, encodeUser e.2)))

/-- Schema-level parse of one element of a `received` array into the typed
model, whose entries carry `from_user`/`message` as the strings the storage
schema prescribes.  It agrees with the code's `try` block on
schema-conformant documents — in particular on every `save_data` image —
but is stricter in general: the code stores arbitrary JSON values for
`p['from_user']`/`p['message']` without a check and only converts
`p['timestamp']`.  The value-faithful model of the `try` block is
`loadEntryR`/`loadSnapshotRaw` below. -/
def parseReceivedEntry : Json → Except String ReceivedEntry
  | .obj fields =>
    match getField fields "from_user", getField fields "message",
          getField fields "timestamp" with
    | some (.str f), some (.str m), some (.str ts) =>
      match fromisoformat ts with
      | some t => .ok ⟨f, m, t⟩
      | none => .error "ValueError: invalid isoformat string"
    | _, _, _ => .error "KeyError"
  | _ => .error "TypeError"

/-- Schema-level parse of one element of a `given` array (stricter than the
code on non-string `to_user`/`message` values; see `loadEntryG` for the
value-faithful model). -/
def parseGivenEntry : Json → Except String GivenEntry
  | .obj fields =>
    match getField fields "to_user", getField fields "message",
          getField fields "timestamp" with
    | some (.str t), some (.str m), some (.str ts) =>
      match fromisoformat ts with
      | some tt => .ok ⟨t, m, tt⟩
      | none => .error "ValueError: invalid isoformat string"
    | _, _, _ => .error "KeyError"
  | _ => .error "TypeError"

/-- Sequential parse of a list, first error wins (the order in which the
list comprehensions of `load_data` evaluate). -/
def parseEntries (f : Json → Except String α) : List Json → Except String (List α)
  | [] => .ok []
  | j :: js =>
    match f j with
    | .error e => .error e
    | .ok a =>
      match parseEntries f js with
      | .error e => .error e
      | .ok as => .ok (a :: as)

/-- Schema-level parse of one user's value: `user_data.get('received', [])`
and `user_data.get('given', [])`, each required to be an array of entry
objects (a missing field defaults to the empty list).  Stricter than the
code, whose comprehension also iterates an empty string or empty object to
zero entries; the value-faithful model is `loadUserR` below. -/
def parseUser (j : Json) : Except String UserData :=
  match j with
  | .obj fields =>
    let recvJson := match getField fields "received" with
      | none => Except.ok []
      | some (.arr elems) => parseEntries parseReceivedEntry elems
      | some _ => Except.error "TypeError: not a list"
    match recvJson with
    | .error e => .error e
    | .ok r =>
      let givenJson := match getField fields "given" with
        | none => Except.ok []
        | some (.arr elems) => parseEntries parseGivenEntry elems
        | some _ => Except.error "TypeError: not a list"
      match givenJson with
      | .error e => .error e
      | .ok g => .ok ⟨r, g⟩
  | _ => .error "AttributeError: get"

/-- The `for user_id, user_data in data.items()` loop. -/
def parseUsers : List (String × Json) → Except String Ledger
  | [] => .ok []
  | (k, j) :: rest =>
    match parseUser j with
    | .error e => .error e
    | .ok ud =>
      match parseUsers rest with
      | .error e => .error e
      | .ok d => .ok ((k, ud) :: d)

/-- Schema-level parse of a whole snapshot document into the typed ledger.
On every `save_data` image it coincides with the body of the `try` block of
`PraiseData.load_data` (lines 53–80); on arbitrary documents the faithful
model of that block is `loadSnapshotRaw` below, which also accepts the
lenient cases the code accepts. -/
def parseSnapshot (j : Json) : Except String Ledger :=
  if isFalsy j then .ok []
  else
    match j with
    | .obj fields => parseUsers fields
    | _ => .error "AttributeError: items"

/-! ## Structural well-formedness of a snapshot document

An independent statement of the expected snapshot document shape — the
storage schema: a top-level mapping from user id to
`{received: [...], given: [...]}`, each entry an object with string
`from_user`/`to_user` and `message` and a parseable timestamp string.  The
typed parse above accepts exactly these documents (`parseSnapshot_isOk`).
The code's load loop enforces only part of this schema: it stores
arbitrary `from_user`/`to_user`/`message` values and iterates an empty
string or empty object in `received`/`given` to zero entries — see
`acceptedDocument` below for what the loop actually accepts. -/

def wfReceivedEntry (j : Json) : Bool :=
  match j with
  | .obj fields =>
    match getField fields "from_user", getField fields "message",
          getField fields "timestamp" with
    | some (.str _), some (.str _), some (.str ts) => (fromisoformat ts).isSome
    | _, _, _ => false
  | _ => false

def wfGivenEntry (j : Json) : Bool :=
  match j with
  | .obj fields =>
    match getField fields "to_user", getField fields "message",
          getField fields "timestamp" with
    | some (.str _), some (.str _), some (.str ts) => (fromisoformat ts).isSome
    | _, _, _ => false
  | _ => false

def wfField (wf : Json → Bool) : Option Json → Bool
  | none => true
  | some (.arr elems) => elems.all wf
  | some _ => false

def wfUser (j : Json) : Bool :=
  match j with
  | .obj fields =>
    wfField wfReceivedEntry (getField fields "received")
      && wfField wfGivenEntry (getField fields "given")
  | _ => false

/-- A snapshot document matches the storage schema when it is falsy
(treated as an empty ledger) or an object all of whose values are
schema-conformant user records.  `wellFormed j = false` is the model of
"malformed: not the expected JSON document shape"; the code raises only on
a subset of these documents (`acceptedDocument`). -/
def wellFormed (j : Json) : Bool :=
  isFalsy j
    || (match j with
        | .obj fields => fields.all (fun e => wfUser e.2)
        | _ => false)

/-! ## Loading -/

/-- The state of the backing file as `load_data` finds it. -/
inductive DataFile where
  | missing
  | unreadable
  | content (j : Json)

/-- `PraiseData.load_data` at the typed (schema) level: a missing file
yields the fresh empty structure (lines 81–83); a read error or any
exception raised while parsing is caught by the `except` handler, which
also resets to the fresh empty structure (lines 84–86).  Total — no
exception propagates.  Coincides with the code on save images
(`load_data_save_data`); the value-faithful counterpart is
`load_data_raw`. -/
def load_data : DataFile → Ledger
  | .missing => []
  | .unreadable => []
  | .content j =>
    match parseSnapshot j with
    | .ok d => d
    | .error _ => []

/-! ## The value-faithful load

The load loop of `PraiseData.load_data` (lines 64–80) performs no type
check on `p['from_user']`/`p['to_user']`/`p['message']` — it stores
whatever JSON value the document carries — and its comprehension over
`user_data.get('received', [])` iterates an empty string or an empty
object to zero entries.  Only `p['timestamp']` is converted and must be a
`fromisoformat`-able string.  The definitions below model that loop
exactly, producing raw entries whose user/message fields are JSON
values. -/

/-- One element of a loaded `received` list as the code actually stores
it: `from_user` and `message` are whatever JSON values the document had. -/
structure RawReceivedEntry where
  from_user : Json
  message : Json
  timestamp : Timestamp

/-- One element of a loaded `given` list as the code actually stores it. -/
structure RawGivenEntry where
  to_user : Json
  message : Json
  timestamp : Timestamp

/-- One user's loaded value in the value-faithful model. -/
structure RawUserData where
  received : List RawReceivedEntry
  given : List RawGivenEntry

/-- The in-memory dict produced by the value-faithful load. -/
abbrev RawLedger := List (String × RawUserData)

/-- Python iteration over the value found at `'received'`/`'given'`:
a list yields its elements, a string yields its characters (as one-char
strings), a dict yields its keys, anything else raises `TypeError`. -/
def iterElems : Json → Except String (List Json)
  | .arr elems => .ok elems
  | .str s => .ok (s.data.map (fun c => .str (String.mk [c])))
  | .obj fields => .ok (fields.map (fun e => .str e.1))
  | .null => .error "TypeError: not iterable"
  | .bool _ => .error "TypeError: not iterable"
  | .num _ => .error "TypeError: not iterable"

/-- The dict literal of lines 66–70 evaluated on one element `p`:
`p['from_user']` (any value, `KeyError` if missing, `TypeError` if `p` is
not a dict), `p['message']` (any value), then
`datetime.fromisoformat(p['timestamp'])` (must be a parseable string). -/
def loadEntryR : Json → Except String RawReceivedEntry
  | .obj fields =>
    match getField fields "from_user" with
    | none => .error "KeyError: from_user"
    | some f =>
      match getField fields "message" with
      | none => .error "KeyError: message"
      | some m =>
        match getField fields "timestamp" with
        | none => .error "KeyError: timestamp"
        | some ts =>
          match ts with
          | .str s =>
            match fromisoformat s with
            | some t => .ok ⟨f, m, t⟩
            | none => .error "ValueError: invalid isoformat string"
          | _ => .error "TypeError: fromisoformat argument must be str"
  | _ => .error "TypeError: entry is not subscriptable by string keys"

/-- The dict literal of lines 74–78 evaluated on one element `p` of a
`given` value. -/
def loadEntryG : Json → Except String RawGivenEntry
  | .obj fields =>
    match getField fields "to_user" with
    | none => .error "KeyError: to_user"
    | some t =>
      match getField fields "message" with
      | none => .error "KeyError: message"
      | some m =>
        match getField fields "timestamp" with
        | none => .error "KeyError: timestamp"
        | some ts =>
          match ts with
          | .str s =>
            match fromisoformat s with
            | some tt => .ok ⟨t, m, tt⟩
            | none => .error "ValueError: invalid isoformat string"
          | _ => .error "TypeError: fromisoformat argument must be str"
  | _ => .error "TypeError: entry is not subscriptable by string keys"

/-- `[ ... for p in user_data.get(key, [])]`: a missing key defaults to
the empty list, otherwise the value is iterated and each element parsed in
order (first error wins). -/
def loadEntryList {α : Type} (f : Json → Except String α) :
    Option Json → Except String (List α)
  | none => .ok []
  | some v =>
    match iterElems v with
    | .error e => .error e
    | .ok elems => parseEntries f elems

/-- Lines 65–80 for one user value: `user_data` must be a dict
(`AttributeError` otherwise), then the `received` comprehension runs in
full, then the `given` comprehension. -/
def loadUserR (j : Json) : Except String RawUserData :=
  match j with
  | .obj fields =>
    match loadEntryList loadEntryR (getField fields "received") with
    | .error e => .error e
    | .ok r =>
      match loadEntryList loadEntryG (getField fields "given") with
      | .error e => .error e
      | .ok g => .ok ⟨r, g⟩
  | _ => .error "AttributeError: get"

/-- The `for user_id, user_data in data.items()` loop, value-faithful. -/
def loadUsersR : List (String × Json) → Except String RawLedger
  | [] => .ok []
  | (k, j) :: rest =>
    match loadUserR j with
    | .error e => .error e
    | .ok ud =>
      match loadUsersR rest with
      | .error e => .error e
      | .ok d => .ok ((k, ud) :: d)

/-- The value-faithful model of the body of the `try` block of
`PraiseData.load_data` (lines 53–80): returns exactly the in-memory data
the code builds, or the exception the `except` handler will catch. -/
def loadSnapshotRaw (j : Json) : Except String RawLedger :=
  if isFalsy j then .ok []
  else
    match j with
    | .obj fields => loadUsersR fields
    | _ => .error "AttributeError: items"

/-- `PraiseData.load_data`, value-faithful: missing file, read error, or a
caught parse exception all yield the fresh empty structure. -/
def load_data_raw : DataFile → RawLedger
  | .missing => []
  | .unreadable => []
  | .content j =>
    match loadSnapshotRaw j with
    | .ok d => d
    | .error _ => []

/-! ## What the load loop actually accepts

An independent structural characterization of the documents on which the
`try` block of `load_data` completes without raising.  Strictly wider than
the schema `wellFormed`: entry user/message fields may be any JSON value,
and a `received`/`given` value of `""` or `{}` is accepted (it iterates to
zero entries), while any non-empty string or non-empty object yields
string elements whose subscripting raises. -/

/-- An element the `received` comprehension processes without raising. -/
def acceptedEntryR (j : Json) : Bool :=
  match j with
  | .obj fields =>
    (getField fields "from_user").isSome
      && (getField fields "message").isSome
      && (match getField fields "timestamp" with
          | some (.str s) => (fromisoformat s).isSome
          | _ => false)
  | _ => false

/-- An element the `given` comprehension processes without raising. -/
def acceptedEntryG (j : Json) : Bool :=
  match j with
  | .obj fields =>
    (getField fields "to_user").isSome
      && (getField fields "message").isSome
      && (match getField fields "timestamp" with
          | some (.str s) => (fromisoformat s).isSome
          | _ => false)
  | _ => false

/-- A `received`/`given` value the comprehension accepts: missing, an
array of accepted elements, an empty string, or an empty object (strings
and dicts iterate to one-character strings and keys, which are never
accepted elements, so only the empty ones pass). -/
def acceptedField (acc : Json → Bool) : Option Json → Bool
  | none => true
  | some (.arr elems) => elems.all acc
  | some (.str s) => s.data.isEmpty
  | some (.obj fields) => fields.isEmpty
  | some _ => false

/-- A user value the load loop accepts. -/
def acceptedUser (j : Json) : Bool :=
  match j with
  | .obj fields =>
    acceptedField acceptedEntryR (getField fields "received")
      && acceptedField acceptedEntryG (getField fields "given")
  | _ => false

/-- A document on which the `try` block of `load_data` completes without
raising. -/
def acceptedDocument (j : Json) : Bool :=
  isFalsy j
    || (match j with
        | .obj fields => fields.all (fun e => acceptedUser e.2)
        | _ => false)

/-- Inclusion of the typed world into the value-faithful one. -/
def rawOfReceived (p : ReceivedEntry) : RawReceivedEntry :=
  ⟨.str p.from_user, .str p.message, p.timestamp⟩

/-- Inclusion of the typed world into the value-faithful one. -/
def rawOfGiven (p : GivenEntry) : RawGivenEntry :=
  ⟨.str p.to_user, .str p.message, p.timestamp⟩

/-- Inclusion of the typed world into the value-faithful one. -/
def rawOfUser (ud : UserData) : RawUserData :=
  ⟨ud.received.map rawOfReceived, ud.given.map rawOfGiven⟩

/-- Inclusion of the typed world into the value-faithful one. -/
def rawOfLedger (d : Ledger) : RawLedger :=
  d.map (fun e => (e.1, rawOfUser e.2))

/-! ## The command orchestrator (`HloppyBot`) -/

/-- Terminal outcome of one `/hloppy` invocation, mirroring the `say`
branches of `handle_hloppy_command` and `_process_praises`. -/
inductive HandleResult where
  | noMentions
  | overLimit (count : Nat)
  | tooManyMentions (remaining : Nat)
  | emptyMessage
  | completed (praisesGiven : Nat) (partialNotice : Bool)
deriving DecidableEq, Repr

/-- The `for mention in mentions` loop of `HloppyBot._process_praises`:
skip self-praise, break with the partial-completion notice once
`praises_given >= remaining_praises`, otherwise record the praise (the
`n`-th `datetime.now()` is `clock n`) and increment the counter.  Returns
the final ledger, `praises_given`, and whether the notice was emitted. -/
def process_praises (u : UserId) (msg : String) (clock : Nat → Timestamp)
    (remaining : Nat) : List UserId → Ledger → Nat → Ledger × Nat × Bool
  | [], d, n => (d, n, false)
  | m :: ms, d, n =>
    if m = u then process_praises u msg clock remaining ms d n
    else if remaining ≤ n then (d, n, true)
    else process_praises u msg clock remaining ms
      (add_praise d u m msg (clock n)) (n + 1)

/-- `HloppyBot.handle_hloppy_command` from the point where the mention list
and the praise message have been resolved against the directory: the
no-mention check, the two quota gates, the empty-message check, and the
recording loop.  Returns the outcome together with the final ledger. -/
def handle_hloppy_command (d : Ledger) (user_id : UserId) (now : Timestamp)
    (clock : Nat → Timestamp) (mentions : List UserId)
    (praise_message : String) : HandleResult × Ledger :=
  if mentions = [] then (.noMentions, d)
  else
    let weekly_count := get_user_weekly_praises d user_id now
    if WEEKLY_PRAISE_LIMIT ≤ weekly_count then (.overLimit weekly_count, d)
    else
      let remaining_praises := WEEKLY_PRAISE_LIMIT - weekly_count
      if remaining_praises < mentions.length then
        (.tooManyMentions remaining_praises, d)
      else if praise_message = "" then (.emptyMessage, d)
      else
        let r := process_praises user_id praise_message clock
          remaining_praises mentions d 0
        (.completed r.2.1 r.2.2, r.1)

/-- Ledger states reachable through the store's mutating operations:
the fresh empty structure, an `add_praise`, or a reload of a saved
snapshot (every operation begins with `self.load_data()`). -/
inductive Reachable : Ledger → Prop where
  | empty : Reachable []
  | praise (d : Ledger) (fu tu : UserId) (m : String) (t : Timestamp) :
      Reachable d → Reachable (add_praise d fu tu m t)
  | reload (d : Ledger) : Reachable d →
      Reachable (load_data (.content (save_data d)))

/-! ## Basic lemmas about the ledger dictionary -/

theorem getUser_updateUser_self (d : Ledger) (k : UserId) (f : UserData → UserData) :
    getUser (updateUser d k f) k = f (getUser d k) := by
  induction d with
  | nil => simp [updateUser, getUser]
  | cons e rest ih =>
    obtain ⟨k', ud⟩ := e
    by_cases h : k' = k
    · subst h; simp [updateUser, getUser]
    · simp [updateUser, getUser, h, ih]

theorem getUser_updateUser_ne (d : Ledger) (k v : UserId) (f : UserData → UserData)
    (h : v ≠ k) : getUser (updateUser d k f) v = getUser d v := by
  have hk' : k ≠ v := fun hh => h hh.symm
  induction d with
  | nil => simp [updateUser, getUser, hk']
  | cons e rest ih =>
    obtain ⟨k', ud⟩ := e
    by_cases hk : k' = k
    · subst hk
      simp [updateUser, getUser, hk']
    · simp only [updateUser, if_neg hk, getUser]
      by_cases hv : k' = v
      · simp [hv]
      · simp [hv, ih]

theorem memberUser_updateUser (d : Ledger) (k v : UserId) (f : UserData → UserData) :
    memberUser (updateUser d k f) v = (memberUser d v || decide (v = k)) := by
  induction d with
  | nil => simp [updateUser, memberUser, eq_comm]
  | cons e rest ih =>
    obtain ⟨k', ud⟩ := e
    by_cases hk : k' = k
    · subst hk
      by_cases hv : k' = v
      · simp [updateUser, memberUser, hv]
      · have hv' : v ≠ k' := fun hh => hv hh.symm
        simp [updateUser, memberUser, hv, hv']
    · simp only [updateUser, if_neg hk, memberUser, List.any_cons]
      simp only [memberUser] at ih
      rw [ih, Bool.or_assoc]

theorem getUser_eq_empty_of_not_mem (d : Ledger) (u : UserId)
    (h : memberUser d u = false) : getUser d u = emptyUserData := by
  induction d with
  | nil => rfl
  | cons e rest ih =>
    obtain ⟨k, ud⟩ := e
    simp only [memberUser, List.any_cons, Bool.or_eq_false_iff] at h
    have hk : k ≠ u := by simpa using h.1
    simpa [getUser, hk] using ih (by simpa [memberUser] using h.2)

/-! ## Effect of `add_praise` on user records -/

theorem received_add_praise (d : Ledger) (fu tu : UserId) (m : String)
    (t : Timestamp) (a : UserId) :
    (getUser (add_praise d fu tu m t) a).received
      = if a = tu then (getUser d a).received ++ [⟨fu, m, t⟩]
        else (getUser d a).received := by
  unfold add_praise
  by_cases ha : a = fu
  · subst ha
    rw [getUser_updateUser_self]
    by_cases h2 : a = tu
    · subst h2; rw [getUser_updateUser_self]; simp
    · rw [getUser_updateUser_ne _ _ _ _ h2]; simp [h2]
  · rw [getUser_updateUser_ne _ _ _ _ ha]
    by_cases h2 : a = tu
    · subst h2; rw [getUser_updateUser_self]; simp
    · rw [getUser_updateUser_ne _ _ _ _ h2]; simp [h2]

theorem given_add_praise (d : Ledger) (fu tu : UserId) (m : String)
    (t : Timestamp) (a : UserId) :
    (getUser (add_praise d fu tu m t) a).given
      = if a = fu then (getUser d a).given ++ [⟨tu, m, t⟩]
        else (getUser d a).given := by
  unfold add_praise
  by_cases ha : a = fu
  · subst ha
    rw [getUser_updateUser_self]
    by_cases h2 : a = tu
    · subst h2; rw [getUser_updateUser_self]; simp
    · rw [getUser_updateUser_ne _ _ _ _ h2]; simp
  · rw [getUser_updateUser_ne _ _ _ _ ha]
    by_cases h2 : a = tu
    · subst h2; rw [getUser_updateUser_self]; simp [ha]
    · rw [getUser_updateUser_ne _ _ _ _ h2]; simp [ha]

theorem memberUser_add_praise (d : Ledger) (fu tu : UserId) (m : String)
    (t : Timestamp) (a : UserId) :
    memberUser (add_praise d fu tu m t) a
      = (memberUser d a || decide (a = tu) || decide (a = fu)) := by
  unfold add_praise
  rw [memberUser_updateUser, memberUser_updateUser]

/-! ## Week arithmetic lemmas -/

theorem weekStart_le (t : Nat) : weekStart t ≤ t := by
  have h : ∀ n : Nat, (n / 86400 - (n / 86400) % 7) * 86400 ≤ n := by
    intro n; omega
  exact h t

theorem weekStart_mod_day (t : Nat) : weekStart t % secondsPerDay = 0 := by
  have h : ∀ n : Nat, ((n / 86400 - (n / 86400) % 7) * 86400) % 86400 = 0 := by
    intro n; omega
  exact h t

theorem weekday_weekStart (t : Nat) : weekday (weekStart t) = 0 := by
  unfold weekStart weekday secondsPerDay
  rw [Nat.mul_div_cancel _ (by norm_num : (0:Nat) < 86400)]
  omega

theorem lt_weekStart_add_week (t : Nat) :
    t < weekStart t + 7 * secondsPerDay := by
  unfold weekStart weekday secondsPerDay
  omega

/-! ## Weekly count lemmas -/

theorem get_user_weekly_praises_eq_filter (d : Ledger) (u : UserId)
    (now : Timestamp) :
    get_user_weekly_praises d u now
      = ((getUser d u).given.filter
          (fun p => decide (weekStart now ≤ p.timestamp))).length := by
  unfold get_user_weekly_praises
  cases h : memberUser d u
  · rw [getUser_eq_empty_of_not_mem d u h]
    simp [emptyUserData]
  · simp

theorem get_user_weekly_praises_add_praise (d : Ledger) (fu tu u : UserId)
    (m : String) (t : Timestamp) (now : Timestamp) :
    get_user_weekly_praises (add_praise d fu tu m t) u now
      = get_user_weekly_praises d u now
        + (if u = fu ∧ weekStart now ≤ t then 1 else 0) := by
  rw [get_user_weekly_praises_eq_filter, get_user_weekly_praises_eq_filter,
    given_add_praise]
  by_cases hu : u = fu
  · subst hu
    simp only [if_pos rfl, List.filter_append, List.length_append, true_and]
    by_cases hc : weekStart now ≤ t <;> simp [hc]
  · simp [hu]

theorem get_praise_count_add_praise (d : Ledger) (fu tu u : UserId)
    (m : String) (t : Timestamp) :
    get_praise_count (add_praise d fu tu m t) u
      = get_praise_count d u + (if u = tu then 1 else 0) := by
  unfold get_praise_count
  rw [received_add_praise]
  by_cases hu : u = tu <;> simp [hu]

/-! ## Symmetry (invariant I1) lemmas -/

theorem countGiven_add_praise (d : Ledger) (fu tu : UserId) (mm : String)
    (tt : Timestamp) (u v : UserId) (m : String) (t : Timestamp) :
    countGiven (add_praise d fu tu mm tt) u v m t
      = countGiven d u v m t
        + (if u = fu ∧ v = tu ∧ m = mm ∧ t = tt then 1 else 0) := by
  unfold countGiven
  rw [given_add_praise]
  by_cases hu : u = fu
  · subst hu
    simp only [if_pos rfl, List.filter_append, List.length_append, true_and]
    by_cases hc : v = tu ∧ m = mm ∧ t = tt
    · obtain ⟨rfl, rfl, rfl⟩ := hc
      simp
    · have hc' : ¬(tu = v ∧ mm = m ∧ tt = t) := by
        intro ⟨h1, h2, h3⟩; exact hc ⟨h1.symm, h2.symm, h3.symm⟩
      simp [hc, hc']
  · simp [hu]

theorem countReceived_add_praise (d : Ledger) (fu tu : UserId) (mm : String)
    (tt : Timestamp) (v u : UserId) (m : String) (t : Timestamp) :
    countReceived (add_praise d fu tu mm tt) v u m t
      = countReceived d v u m t
        + (if v = tu ∧ u = fu ∧ m = mm ∧ t = tt then 1 else 0) := by
  unfold countReceived
  rw [received_add_praise]
  by_cases hv : v = tu
  · subst hv
    simp only [if_pos rfl, List.filter_append, List.length_append, true_and]
    by_cases hc : u = fu ∧ m = mm ∧ t = tt
    · obtain ⟨rfl, rfl, rfl⟩ := hc
      simp
    · have hc' : ¬(fu = u ∧ mm = m ∧ tt = t) := by
        intro ⟨h1, h2, h3⟩; exact hc ⟨h1.symm, h2.symm, h3.symm⟩
      simp [hc, hc']
  · simp [hv]

theorem symmetric_empty : SymmetricLedger [] := by
  intro u v m t
  simp [countGiven, countReceived, getUser, emptyUserData]

theorem symmetric_add_praise (d : Ledger) (fu tu : UserId) (mm : String)
    (tt : Timestamp) (h : SymmetricLedger d) :
    SymmetricLedger (add_praise d fu tu mm tt) := by
  intro u v m t
  rw [countGiven_add_praise, countReceived_add_praise, h u v m t]
  congr 1
  apply if_congr _ rfl rfl
  tauto

/-! ## Timestamp codec round trip -/

theorem digitVal_digitChar (dg : Nat) (h : dg < 10) :
    digitVal (digitChar dg) = some dg := by
  interval_cases dg <;> decide

theorem fromisoformatAux_toDigitsAux (n : Nat) :
    ∀ acc a, fromisoformatAux (toDigitsAux n acc) a
      = fromisoformatAux acc (pushNum a n) := by
  induction n using Nat.strong_induction_on with
  | _ n ih =>
    intro acc a
    match n with
    | 0 => simp [toDigitsAux, pushNum]
    | k + 1 =>
      rw [toDigitsAux, pushNum,
        ih ((k + 1) / 10) (Nat.div_lt_self (Nat.succ_pos k) (by norm_num)) _ _]
      simp [fromisoformatAux,
        digitVal_digitChar ((k + 1) % 10) (Nat.mod_lt _ (by norm_num))]

theorem pushNum_zero (n : Nat) : pushNum 0 n = n := by
  induction n using Nat.strong_induction_on with
  | _ n ih =>
    match n with
    | 0 => simp [pushNum]
    | k + 1 =>
      rw [pushNum, ih ((k + 1) / 10) (Nat.div_lt_self (Nat.succ_pos k) (by norm_num))]
      omega

theorem toDigitsAux_ne_nil (n : Nat) :
    ∀ acc : List Char, acc ≠ [] ∨ n ≠ 0 → toDigitsAux n acc ≠ [] := by
  induction n using Nat.strong_induction_on with
  | _ n ih =>
    intro acc h
    match n with
    | 0 =>
      rw [toDigitsAux]
      rcases h with h | h
      · exact h
      · exact absurd rfl h
    | k + 1 =>
      rw [toDigitsAux]
      exact ih ((k + 1) / 10) (Nat.div_lt_self (Nat.succ_pos k) (by norm_num))
        _ (Or.inl (by simp))

theorem fromisoformat_isoformat (t : Timestamp) :
    fromisoformat (isoformat t) = some t := by
  unfold isoformat
  by_cases h : t = 0
  · subst h; rfl
  · rw [if_neg h]
    have hne : toDigitsAux t [] ≠ [] := toDigitsAux_ne_nil t [] (Or.inr h)
    unfold fromisoformat
    have hdata : (String.mk (toDigitsAux t [])).data = toDigitsAux t [] := rfl
    rw [hdata, if_neg (by simpa using hne)]
    rw [fromisoformatAux_toDigitsAux t [] 0, pushNum_zero]
    rfl

/-! ## Save/load round trip -/

theorem parseReceivedEntry_encode (p : ReceivedEntry) :
    parseReceivedEntry (encodeReceived p) = .ok p := by
  simp [parseReceivedEntry, encodeReceived, getField, List.find?,
    fromisoformat_isoformat]

theorem parseGivenEntry_encode (p : GivenEntry) :
    parseGivenEntry (encodeGiven p) = .ok p := by
  simp [parseGivenEntry, encodeGiven, getField, List.find?,
    fromisoformat_isoformat]

theorem parseEntries_encodeReceived (l : List ReceivedEntry) :
    parseEntries parseReceivedEntry (l.map encodeReceived) = .ok l := by
  induction l with
  | nil => rfl
  | cons p ps ih => simp [parseEntries, parseReceivedEntry_encode, ih]

theorem parseEntries_encodeGiven (l : List GivenEntry) :
    parseEntries parseGivenEntry (l.map encodeGiven) = .ok l := by
  induction l with
  | nil => rfl
  | cons p ps ih => simp [parseEntries, parseGivenEntry_encode, ih]

theorem parseUser_encode (ud : UserData) : parseUser (encodeUser ud) = .ok ud := by
  simp [parseUser, encodeUser, getField, List.find?,
    parseEntries_encodeReceived, parseEntries_encodeGiven]

theorem parseUsers_encode (d : Ledger) :
    parseUsers (d.map (fun e => (e.1, encodeUser e.2))) = .ok d := by
  induction d with
  | nil => rfl
  | cons e rest ih =>
    obtain ⟨k, ud⟩ := e
    simp [parseUsers, parseUser_encode, ih]

theorem parseSnapshot_save_data (d : Ledger) :
    parseSnapshot (save_data d) = .ok (dropEmpty d) := by
  unfold save_data parseSnapshot
  by_cases h : dropEmpty d = []
  · rw [h]; rfl
  · have hfalsy :
        isFalsy (.obj ((dropEmpty d).map fun e => (e.1, encodeUser e.2))) = false := by
      simp [isFalsy, h]
    rw [if_neg (by simp [hfalsy])]
    exact parseUsers_encode (dropEmpty d)

theorem load_data_save_data (d : Ledger) :
    load_data (.content (save_data d)) = dropEmpty d := by
  show (match parseSnapshot (save_data d) with
        | .ok d => d
        | .error _ => []) = dropEmpty d
  rw [parseSnapshot_save_data]

theorem dropEmpty_idem (d : Ledger) : dropEmpty (dropEmpty d) = dropEmpty d := by
  unfold dropEmpty
  rw [List.filter_filter]
  simp only [Bool.and_self]

/-! ## Parse failure agrees with structural malformedness -/

theorem parseReceivedEntry_isOk (j : Json) :
    (parseReceivedEntry j).isOk = wfReceivedEntry j := by
  cases j <;> try rfl
  case obj fields =>
    simp only [parseReceivedEntry, wfReceivedEntry]
    cases h1 : getField fields "from_user" with
    | none => rfl
    | some j1 =>
      cases j1 <;> try rfl
      case str s1 =>
        cases h2 : getField fields "message" with
        | none => rfl
        | some j2 =>
          cases j2 <;> try rfl
          case str s2 =>
            cases h3 : getField fields "timestamp" with
            | none => rfl
            | some j3 =>
              cases j3 <;> try rfl
              case str s3 =>
                cases h4 : fromisoformat s3 <;>
                  simp [h4, Except.isOk, Except.toBool]

theorem parseGivenEntry_isOk (j : Json) :
    (parseGivenEntry j).isOk = wfGivenEntry j := by
  cases j <;> try rfl
  case obj fields =>
    simp only [parseGivenEntry, wfGivenEntry]
    cases h1 : getField fields "to_user" with
    | none => rfl
    | some j1 =>
      cases j1 <;> try rfl
      case str s1 =>
        cases h2 : getField fields "message" with
        | none => rfl
        | some j2 =>
          cases j2 <;> try rfl
          case str s2 =>
            cases h3 : getField fields "timestamp" with
            | none => rfl
            | some j3 =>
              cases j3 <;> try rfl
              case str s3 =>
                cases h4 : fromisoformat s3 <;>
                  simp [h4, Except.isOk, Except.toBool]

theorem parseEntries_isOk {α : Type} (f : Json → Except String α)
    (wf : Json → Bool) (h : ∀ j, (f j).isOk = wf j) (l : List Json) :
    (parseEntries f l).isOk = l.all wf := by
  induction l with
  | nil => rfl
  | cons j js ih =>
    simp only [parseEntries, List.all_cons]
    cases hj : f j with
    | error e =>
      have := h j
      rw [hj] at this
      simp [← this, Except.isOk, Except.toBool]
    | ok a =>
      have := h j
      rw [hj] at this
      cases hjs : parseEntries f js with
      | error e =>
        rw [hjs] at ih
        simp [← this, ← ih, Except.isOk, Except.toBool]
      | ok as =>
        rw [hjs] at ih
        simp [← this, ← ih, Except.isOk, Except.toBool]

theorem parseUser_isOk (j : Json) : (parseUser j).isOk = wfUser j := by
  unfold parseUser wfUser
  cases j <;> try rfl
  case obj fields =>
    have hr : ∀ o : Option Json,
        (match o with
          | none => Except.ok []
          | some (.arr elems) => parseEntries parseReceivedEntry elems
          | some _ => Except.error "TypeError: not a list").isOk
          = wfField wfReceivedEntry o := by
      intro o
      match o with
      | none => rfl
      | some (.arr elems) =>
        simpa [wfField] using
          parseEntries_isOk parseReceivedEntry wfReceivedEntry
            parseReceivedEntry_isOk elems
      | some .null | some (.bool _) | some (.num _) | some (.str _)
      | some (.obj _) => rfl
    have hg : ∀ o : Option Json,
        (match o with
          | none => Except.ok []
          | some (.arr elems) => parseEntries parseGivenEntry elems
          | some _ => Except.error "TypeError: not a list").isOk
          = wfField wfGivenEntry o := by
      intro o
      match o with
      | none => rfl
      | some (.arr elems) =>
        simpa [wfField] using
          parseEntries_isOk parseGivenEntry wfGivenEntry
            parseGivenEntry_isOk elems
      | some .null | some (.bool _) | some (.num _) | some (.str _)
      | some (.obj _) => rfl
    cases hrv : (match getField fields "received" with
        | none => Except.ok ([] : List ReceivedEntry)
        | some (.arr elems) => parseEntries parseReceivedEntry elems
        | some _ => Except.error "TypeError: not a list") with
    | error e =>
      have := hr (getField fields "received")
      rw [hrv] at this
      simp [hrv, ← this, Except.isOk, Except.toBool]
    | ok r =>
      have h1 := hr (getField fields "received")
      rw [hrv] at h1
      cases hgv : (match getField fields "given" with
          | none => Except.ok ([] : List GivenEntry)
          | some (.arr elems) => parseEntries parseGivenEntry elems
          | some _ => Except.error "TypeError: not a list") with
      | error e =>
        have h2 := hg (getField fields "given")
        rw [hgv] at h2
        simp [hrv, hgv, ← h1, ← h2, Except.isOk, Except.toBool]
      | ok g =>
        have h2 := hg (getField fields "given")
        rw [hgv] at h2
        simp [hrv, hgv, ← h1, ← h2, Except.isOk, Except.toBool]

theorem parseUsers_isOk (l : List (String × Json)) :
    (parseUsers l).isOk = l.all (fun e => wfUser e.2) := by
  induction l with
  | nil => rfl
  | cons e rest ih =>
    obtain ⟨k, j⟩ := e
    simp only [parseUsers, List.all_cons]
    cases hj : parseUser j with
    | error msg =>
      have := parseUser_isOk j
      rw [hj] at this
      simp [← this, Except.isOk, Except.toBool]
    | ok ud =>
      have := parseUser_isOk j
      rw [hj] at this
      cases hrest : parseUsers rest with
      | error msg =>
        rw [hrest] at ih
        simp [← this, ← ih, Except.isOk, Except.toBool]
      | ok d =>
        rw [hrest] at ih
        simp [← this, ← ih, Except.isOk, Except.toBool]

theorem parseSnapshot_isOk (j : Json) :
    (parseSnapshot j).isOk = wellFormed j := by
  unfold parseSnapshot wellFormed
  by_cases h : isFalsy j
  · simp [h, Except.isOk, Except.toBool]
  · have hb : isFalsy j = false := by simpa using h
    rw [if_neg h, hb, Bool.false_or]
    cases j with
    | obj fields => exact parseUsers_isOk fields
    | null => rfl
    | bool b => rfl
    | num n => rfl
    | str s => rfl
    | arr elems => rfl

theorem parseSnapshot_error_of_malformed (j : Json)
    (h : wellFormed j = false) : ∃ e, parseSnapshot j = .error e := by
  have := parseSnapshot_isOk j
  rw [h] at this
  cases hp : parseSnapshot j with
  | error e => exact ⟨e, rfl⟩
  | ok d => rw [hp] at this; simp [Except.isOk, Except.toBool] at this

theorem load_data_malformed (j : Json) (h : wellFormed j = false) :
    load_data (.content j) = [] := by
  obtain ⟨e, he⟩ := parseSnapshot_error_of_malformed j h
  show (match parseSnapshot j with
        | .ok d => d
        | .error _ => []) = []
  rw [he]

/-! ## The value-faithful load agrees with `acceptedDocument` -/

theorem loadEntryR_isOk (j : Json) :
    (loadEntryR j).isOk = acceptedEntryR j := by
  cases j <;> try rfl
  case obj fields =>
    simp only [loadEntryR, acceptedEntryR]
    cases h1 : getField fields "from_user" with
    | none => rfl
    | some f =>
      cases h2 : getField fields "message" with
      | none => rfl
      | some m =>
        cases h3 : getField fields "timestamp" with
        | none => rfl
        | some ts =>
          cases ts <;> try rfl
          case str s =>
            cases h4 : fromisoformat s <;>
              simp [h4, Except.isOk, Except.toBool]

theorem loadEntryG_isOk (j : Json) :
    (loadEntryG j).isOk = acceptedEntryG j := by
  cases j <;> try rfl
  case obj fields =>
    simp only [loadEntryG, acceptedEntryG]
    cases h1 : getField fields "to_user" with
    | none => rfl
    | some t =>
      cases h2 : getField fields "message" with
      | none => rfl
      | some m =>
        cases h3 : getField fields "timestamp" with
        | none => rfl
        | some ts =>
          cases ts <;> try rfl
          case str s =>
            cases h4 : fromisoformat s <;>
              simp [h4, Except.isOk, Except.toBool]

theorem loadEntryList_isOk {α : Type} (f : Json → Except String α)
    (acc : Json → Bool) (h : ∀ j, (f j).isOk = acc j)
    (hstr : ∀ s, acc (.str s) = false) (o : Option Json) :
    (loadEntryList f o).isOk = acceptedField acc o := by
  match o with
  | none => rfl
  | some (.arr elems) =>
    show (parseEntries f elems).isOk = elems.all acc
    exact parseEntries_isOk f acc h elems
  | some (.str s) =>
    show (parseEntries f (s.data.map fun c => .str (String.mk [c]))).isOk
      = s.data.isEmpty
    rw [parseEntries_isOk f acc h]
    have hc : ∀ cs : List Char,
        (cs.map (fun c => Json.str (String.mk [c]))).all acc = cs.isEmpty := by
      intro cs
      cases cs with
      | nil => rfl
      | cons c cs' => simp [hstr]
    rw [hc s.data]
  | some (.obj fields) =>
    show (parseEntries f (fields.map fun e => .str e.1)).isOk
      = fields.isEmpty
    rw [parseEntries_isOk f acc h]
    have hc : ∀ fs : List (String × Json),
        (fs.map (fun e => Json.str e.1)).all acc = fs.isEmpty := by
      intro fs
      cases fs with
      | nil => rfl
      | cons e fs' => simp [hstr]
    rw [hc fields]
  | some .null => rfl
  | some (.bool b) => rfl
  | some (.num n) => rfl

theorem loadUserR_isOk (j : Json) : (loadUserR j).isOk = acceptedUser j := by
  cases j <;> try rfl
  case obj fields =>
    simp only [loadUserR, acceptedUser]
    cases hrv : loadEntryList loadEntryR (getField fields "received") with
    | error e =>
      have h1 := loadEntryList_isOk loadEntryR acceptedEntryR loadEntryR_isOk
        (fun s => rfl) (getField fields "received")
      rw [hrv] at h1
      simp [← h1, Except.isOk, Except.toBool]
    | ok r =>
      have h1 := loadEntryList_isOk loadEntryR acceptedEntryR loadEntryR_isOk
        (fun s => rfl) (getField fields "received")
      rw [hrv] at h1
      cases hgv : loadEntryList loadEntryG (getField fields "given") with
      | error e =>
        have h2 := loadEntryList_isOk loadEntryG acceptedEntryG loadEntryG_isOk
          (fun s => rfl) (getField fields "given")
        rw [hgv] at h2
        simp [← h1, ← h2, Except.isOk, Except.toBool]
      | ok g =>
        have h2 := loadEntryList_isOk loadEntryG acceptedEntryG loadEntryG_isOk
          (fun s => rfl) (getField fields "given")
        rw [hgv] at h2
        simp [← h1, ← h2, Except.isOk, Except.toBool]

theorem loadUsersR_isOk (l : List (String × Json)) :
    (loadUsersR l).isOk = l.all (fun e => acceptedUser e.2) := by
  induction l with
  | nil => rfl
  | cons e rest ih =>
    obtain ⟨k, j⟩ := e
    simp only [loadUsersR, List.all_cons]
    cases hj : loadUserR j with
    | error msg =>
      have := loadUserR_isOk j
      rw [hj] at this
      simp [← this, Except.isOk, Except.toBool]
    | ok ud =>
      have := loadUserR_isOk j
      rw [hj] at this
      cases hrest : loadUsersR rest with
      | error msg =>
        rw [hrest] at ih
        simp [← this, ← ih, Except.isOk, Except.toBool]
      | ok d =>
        rw [hrest] at ih
        simp [← this, ← ih, Except.isOk, Except.toBool]

theorem loadSnapshotRaw_isOk (j : Json) :
    (loadSnapshotRaw j).isOk = acceptedDocument j := by
  unfold loadSnapshotRaw acceptedDocument
  by_cases h : isFalsy j
  · simp [h, Except.isOk, Except.toBool]
  · have hb : isFalsy j = false := by simpa using h
    rw [if_neg h, hb, Bool.false_or]
    cases j with
    | obj fields => exact loadUsersR_isOk fields
    | null => rfl
    | bool b => rfl
    | num n => rfl
    | str s => rfl
    | arr elems => rfl

theorem loadSnapshotRaw_error_iff (j : Json) :
    (∃ e, loadSnapshotRaw j = Except.error e) ↔ acceptedDocument j = false := by
  constructor
  · rintro ⟨e, he⟩
    rw [← loadSnapshotRaw_isOk, he]
    rfl
  · intro hacc
    have h := loadSnapshotRaw_isOk j
    rw [hacc] at h
    cases hp : loadSnapshotRaw j with
    | error e => exact ⟨e, rfl⟩
    | ok d => rw [hp] at h; simp [Except.isOk, Except.toBool] at h

theorem load_data_raw_not_accepted (j : Json)
    (h : acceptedDocument j = false) : load_data_raw (.content j) = [] := by
  obtain ⟨e, he⟩ := (loadSnapshotRaw_error_iff j).mpr h
  show (match loadSnapshotRaw j with
        | .ok d => d
        | .error _ => []) = []
  rw [he]

/-! ## The value-faithful load agrees with the typed load on save images -/

theorem loadEntryR_encode (p : ReceivedEntry) :
    loadEntryR (encodeReceived p) = .ok (rawOfReceived p) := by
  simp [loadEntryR, encodeReceived, getField, List.find?,
    fromisoformat_isoformat, rawOfReceived]

theorem loadEntryG_encode (p : GivenEntry) :
    loadEntryG (encodeGiven p) = .ok (rawOfGiven p) := by
  simp [loadEntryG, encodeGiven, getField, List.find?,
    fromisoformat_isoformat, rawOfGiven]

theorem parseEntries_loadEntryR_encode (l : List ReceivedEntry) :
    parseEntries loadEntryR (l.map encodeReceived)
      = .ok (l.map rawOfReceived) := by
  induction l with
  | nil => rfl
  | cons p ps ih => simp [parseEntries, loadEntryR_encode, ih]

theorem parseEntries_loadEntryG_encode (l : List GivenEntry) :
    parseEntries loadEntryG (l.map encodeGiven)
      = .ok (l.map rawOfGiven) := by
  induction l with
  | nil => rfl
  | cons p ps ih => simp [parseEntries, loadEntryG_encode, ih]

theorem loadUserR_encode (ud : UserData) :
    loadUserR (encodeUser ud) = .ok (rawOfUser ud) := by
  simp [loadUserR, encodeUser, getField, List.find?, loadEntryList,
    iterElems, parseEntries_loadEntryR_encode, parseEntries_loadEntryG_encode,
    rawOfUser]

theorem loadUsersR_encode (d : Ledger) :
    loadUsersR (d.map (fun e => (e.1, encodeUser e.2)))
      = .ok (rawOfLedger d) := by
  induction d with
  | nil => rfl
  | cons e rest ih =>
    obtain ⟨k, ud⟩ := e
    simp [loadUsersR, loadUserR_encode, ih, rawOfLedger]

theorem loadSnapshotRaw_save_data (d : Ledger) :
    loadSnapshotRaw (save_data d) = .ok (rawOfLedger (dropEmpty d)) := by
  unfold save_data loadSnapshotRaw
  by_cases h : dropEmpty d = []
  · rw [h]; rfl
  · have hfalsy :
        isFalsy (.obj ((dropEmpty d).map fun e => (e.1, encodeUser e.2))) = false := by
      simp [isFalsy, h]
    rw [if_neg (by simp [hfalsy])]
    exact loadUsersR_encode (dropEmpty d)

/-! ## Key uniqueness and the reachable-state invariant -/

theorem memberUser_eq_mem_keys (d : Ledger) (u : UserId) :
    memberUser d u = decide (u ∈ d.map Prod.fst) := by
  induction d with
  | nil => rfl
  | cons e rest ih =>
    simp only [memberUser, List.any_cons, List.map_cons, List.mem_cons] at *
    have hsplit : (decide (u = e.1 ∨ u ∈ List.map Prod.fst rest) : Bool)
        = (decide (u = e.1) || decide (u ∈ List.map Prod.fst rest)) := by
      by_cases h1 : u = e.1 <;> by_cases h2 : u ∈ List.map Prod.fst rest <;>
        simp [h1, h2]
    rw [hsplit, ← ih]
    by_cases h : e.1 = u
    · subst h; simp
    · have h2 : ¬(u = e.1) := fun hh => h hh.symm
      simp [h, h2]

theorem keys_updateUser (d : Ledger) (k : UserId) (f : UserData → UserData) :
    (updateUser d k f).map Prod.fst
      = if k ∈ d.map Prod.fst then d.map Prod.fst
        else d.map Prod.fst ++ [k] := by
  induction d with
  | nil => simp [updateUser]
  | cons e rest ih =>
    obtain ⟨k', ud⟩ := e
    by_cases hk : k' = k
    · subst hk; simp [updateUser]
    · have hk2 : k ≠ k' := fun h => hk h.symm
      by_cases hm : k ∈ rest.map Prod.fst
      · simp [updateUser, hk, ih, hm, hk2]
      · simp [updateUser, hk, ih, hm, hk2]

theorem NodupKeys_updateUser (d : Ledger) (k : UserId) (f : UserData → UserData)
    (h : NodupKeys d) : NodupKeys (updateUser d k f) := by
  unfold NodupKeys at *
  rw [keys_updateUser]
  by_cases hm : k ∈ d.map Prod.fst
  · simp [hm, h]
  · simp [hm, h, List.nodup_append]

theorem NodupKeys_add_praise (d : Ledger) (fu tu : UserId) (m : String)
    (t : Timestamp) (h : NodupKeys d) : NodupKeys (add_praise d fu tu m t) :=
  NodupKeys_updateUser _ _ _ (NodupKeys_updateUser _ _ _ h)

theorem NodupKeys_dropEmpty (d : Ledger) (h : NodupKeys d) :
    NodupKeys (dropEmpty d) := by
  unfold NodupKeys at *
  exact h.sublist (List.Sublist.map Prod.fst (List.filter_sublist d))

theorem getUser_dropEmpty (d : Ledger) (u : UserId) (h : NodupKeys d) :
    getUser (dropEmpty d) u = getUser d u := by
  induction d with
  | nil => rfl
  | cons e rest ih =>
    obtain ⟨k, ud⟩ := e
    unfold NodupKeys at h
    simp only [List.map_cons, List.nodup_cons] at h
    by_cases hp : (!ud.received.isEmpty || !ud.given.isEmpty) = true
    · rw [show dropEmpty ((k, ud) :: rest) = (k, ud) :: dropEmpty rest by
        simp [dropEmpty, List.filter_cons, hp]]
      by_cases hk : k = u
      · simp [getUser, hk]
      · simp [getUser, hk, ih h.2]
    · have hud : ud = emptyUserData := by
        simp only [Bool.or_eq_true, Bool.not_eq_true', List.isEmpty_eq_true] at hp
        push_neg at hp
        obtain ⟨h1, h2⟩ := hp
        cases ud
        simp_all [emptyUserData]
      rw [show dropEmpty ((k, ud) :: rest) = dropEmpty rest by
        simp [dropEmpty, List.filter_cons, hp]]
      by_cases hk : k = u
      · subst hk
        have hmem : memberUser (dropEmpty rest) k = false := by
          rw [memberUser_eq_mem_keys]
          simp only [decide_eq_false_iff_not]
          intro hc
          exact h.1 (List.Sublist.mem hc
            (List.Sublist.map Prod.fst (List.filter_sublist rest)))
        rw [getUser_eq_empty_of_not_mem _ _ hmem]
        simp [getUser, hud]
      · simp [getUser, hk, ih h.2]

theorem countGiven_dropEmpty (d : Ledger) (h : NodupKeys d) (u v : UserId)
    (m : String) (t : Timestamp) :
    countGiven (dropEmpty d) u v m t = countGiven d u v m t := by
  unfold countGiven
  rw [getUser_dropEmpty d u h]

theorem countReceived_dropEmpty (d : Ledger) (h : NodupKeys d) (v u : UserId)
    (m : String) (t : Timestamp) :
    countReceived (dropEmpty d) v u m t = countReceived d v u m t := by
  unfold countReceived
  rw [getUser_dropEmpty d v h]

theorem symmetric_dropEmpty (d : Ledger) (hn : NodupKeys d)
    (h : SymmetricLedger d) : SymmetricLedger (dropEmpty d) := by
  intro u v m t
  rw [countGiven_dropEmpty d hn, countReceived_dropEmpty d hn]
  exact h u v m t

theorem reachable_nodupKeys (d : Ledger) (h : Reachable d) : NodupKeys d := by
  induction h with
  | empty => simp [NodupKeys]
  | praise d fu tu m t _ ih => exact NodupKeys_add_praise d fu tu m t ih
  | reload d _ ih =>
    rw [load_data_save_data]
    exact NodupKeys_dropEmpty d ih

theorem reachable_symmetric (d : Ledger) (h : Reachable d) :
    SymmetricLedger d := by
  induction h with
  | empty => exact symmetric_empty
  | praise d fu tu m t _ ih => exact symmetric_add_praise d fu tu m t ih
  | reload d hr ih =>
    rw [load_data_save_data]
    exact symmetric_dropEmpty d (reachable_nodupKeys d hr) ih

/-! ## Ranking lemmas -/

theorem mem_addUser (s : List UserId) (u v : UserId) :
    v ∈ addUser s u ↔ v ∈ s ∨ v = u := by
  unfold addUser
  by_cases h : u ∈ s
  · simp only [if_pos h]
    constructor
    · exact Or.inl
    · rintro (hv | rfl)
      · exact hv
      · exact h
  · simp [if_neg h]

theorem nodup_addUser (s : List UserId) (u : UserId) (h : s.Nodup) :
    (addUser s u).Nodup := by
  unfold addUser
  by_cases hm : u ∈ s
  · simpa [hm] using h
  · simp [hm, List.nodup_append, h]

theorem mem_foldl_addUser {α : Type} (f : α → UserId) (l : List α)
    (s : List UserId) (v : UserId) :
    v ∈ l.foldl (fun acc p => addUser acc (f p)) s
      ↔ v ∈ s ∨ ∃ p ∈ l, f p = v := by
  induction l generalizing s with
  | nil => simp
  | cons p ps ih =>
    simp only [List.foldl_cons, ih, mem_addUser, List.mem_cons]
    constructor
    · rintro ((hv | rfl) | ⟨q, hq, rfl⟩)
      · exact Or.inl hv
      · exact Or.inr ⟨p, Or.inl rfl, rfl⟩
      · exact Or.inr ⟨q, Or.inr hq, rfl⟩
    · rintro (hv | ⟨q, (rfl | hq), rfl⟩)
      · exact Or.inl (Or.inl hv)
      · exact Or.inl (Or.inr rfl)
      · exact Or.inr ⟨q, hq, rfl⟩

theorem nodup_foldl_addUser {α : Type} (f : α → UserId) (l : List α)
    (s : List UserId) (h : s.Nodup) :
    (l.foldl (fun acc p => addUser acc (f p)) s).Nodup := by
  induction l generalizing s with
  | nil => exact h
  | cons p ps ih => exact ih _ (nodup_addUser _ _ h)

theorem mem_collectUsers (s : List UserId) (e : UserId × UserData)
    (v : UserId) : v ∈ collectUsers s e ↔ v ∈ s ∨ contrib e v := by
  unfold collectUsers contrib
  rw [mem_foldl_addUser, mem_foldl_addUser]
  by_cases hne : e.2.received ≠ [] ∨ e.2.given ≠ []
  · simp only [if_pos hne, mem_addUser]
    constructor
    · rintro (((hv | rfl) | hg) | hr)
      · exact Or.inl hv
      · exact Or.inr (Or.inl ⟨hne, rfl⟩)
      · exact Or.inr (Or.inr (Or.inl hg))
      · exact Or.inr (Or.inr (Or.inr hr))
    · rintro (hv | (⟨_, rfl⟩ | hg | hr))
      · exact Or.inl (Or.inl (Or.inl hv))
      · exact Or.inl (Or.inl (Or.inr rfl))
      · exact Or.inl (Or.inr hg)
      · exact Or.inr hr
  · simp only [if_neg hne]
    constructor
    · rintro ((hv | hg) | hr)
      · exact Or.inl hv
      · exact Or.inr (Or.inr (Or.inl hg))
      · exact Or.inr (Or.inr (Or.inr hr))
    · rintro (hv | (⟨hc, _⟩ | hg | hr))
      · exact Or.inl (Or.inl hv)
      · exact absurd hc hne
      · exact Or.inl (Or.inr hg)
      · exact Or.inr hr

theorem nodup_collectUsers (s : List UserId) (e : UserId × UserData)
    (h : s.Nodup) : (collectUsers s e).Nodup := by
  unfold collectUsers
  apply nodup_foldl_addUser
  apply nodup_foldl_addUser
  by_cases hne : e.2.received ≠ [] ∨ e.2.given ≠ []
  · simpa [hne] using nodup_addUser _ _ h
  · simpa [hne] using h

theorem mem_foldl_collectUsers (l : List (UserId × UserData))
    (s : List UserId) (v : UserId) :
    v ∈ l.foldl collectUsers s ↔ v ∈ s ∨ ∃ e ∈ l, contrib e v := by
  induction l generalizing s with
  | nil => simp
  | cons e es ih =>
    simp only [List.foldl_cons, ih, mem_collectUsers, List.mem_cons]
    constructor
    · rintro ((hv | hc) | ⟨q, hq, hcq⟩)
      · exact Or.inl hv
      · exact Or.inr ⟨e, Or.inl rfl, hc⟩
      · exact Or.inr ⟨q, Or.inr hq, hcq⟩
    · rintro (hv | ⟨q, (rfl | hq), hcq⟩)
      · exact Or.inl (Or.inl hv)
      · exact Or.inl (Or.inr hcq)
      · exact Or.inr ⟨q, hq, hcq⟩

theorem mem_all_users (d : Ledger) (v : UserId) :
    v ∈ all_users d ↔ ∃ e ∈ d, contrib e v := by
  unfold all_users
  rw [mem_foldl_collectUsers]
  simp

theorem nodup_all_users (d : Ledger) : (all_users d).Nodup := by
  unfold all_users
  have h : ∀ s : List UserId, s.Nodup → (d.foldl collectUsers s).Nodup := by
    induction d with
    | nil => intro s hs; exact hs
    | cons e es ih => intro s hs; exact ih _ (nodup_collectUsers s e hs)
  exact h [] List.nodup_nil

theorem get_sorted_users_map_fst_perm (d : Ledger) :
    ((get_sorted_users d).map Prod.fst).Perm (all_users d) := by
  unfold get_sorted_users
  refine ((List.mergeSort_perm _ _).map Prod.fst).trans ?_
  rw [List.map_map]
  have hid : (Prod.fst ∘ fun uid : UserId =>
      (uid, receivedCount d uid, givenCount d uid,
       receivedCount d uid + givenCount d uid)) = id := rfl
  rw [hid, List.map_id]

theorem mem_get_sorted_users (d : Ledger) (u : UserId)
    (h : u ∈ all_users d) :
    (u, receivedCount d u, givenCount d u,
      receivedCount d u + givenCount d u) ∈ get_sorted_users d := by
  unfold get_sorted_users
  rw [List.mem_mergeSort]
  exact List.mem_map_of_mem _ h

theorem get_sorted_users_components (d : Ledger)
    (x : UserId × Nat × Nat × Nat) (hx : x ∈ get_sorted_users d) :
    x.2.1 = receivedCount d x.1 ∧ x.2.2.1 = givenCount d x.1
      ∧ x.2.2.2 = x.2.1 + x.2.2.1 := by
  unfold get_sorted_users at hx
  rw [List.mem_mergeSort] at hx
  obtain ⟨uid, _, rfl⟩ := List.mem_map.mp hx
  simp

theorem get_sorted_users_sorted (d : Ledger) :
    (get_sorted_users d).Pairwise (fun a b => b.2.2.2 ≤ a.2.2.2) := by
  unfold get_sorted_users
  have h := @List.sorted_mergeSort (UserId × Nat × Nat × Nat)
    (fun a b => Nat.ble b.2.2.2 a.2.2.2)
    (fun a b c hab hbc => by
      simp only [Nat.ble_eq] at *
      omega)
    (fun a b => by
      simp only [Bool.or_eq_true, Nat.ble_eq]
      omega)
    ((all_users d).map
      (fun uid => (uid, receivedCount d uid, givenCount d uid,
                   receivedCount d uid + givenCount d uid)))
  exact h.imp (fun hab => by simpa [Nat.ble_eq] using hab)

/-! ## Orchestrator loop lemmas -/

theorem process_praises_filter_self (u : UserId) (msg : String)
    (clock : Nat → Timestamp) (remaining : Nat) (l : List UserId) :
    ∀ (d : Ledger) (n : Nat),
      process_praises u msg clock remaining l d n
        = process_praises u msg clock remaining
            (l.filter (fun m => decide (m ≠ u))) d n := by
  induction l with
  | nil => intro d n; rfl
  | cons m ms ih =>
    intro d n
    by_cases hm : m = u
    · subst hm
      rw [process_praises, if_pos rfl,
        List.filter_cons_of_neg (by simp), ih]
    · rw [process_praises, if_neg hm,
        List.filter_cons_of_pos (by simpa using hm), process_praises,
        if_neg hm]
      by_cases hg : remaining ≤ n
      · rw [if_pos hg, if_pos hg]
      · rw [if_neg hg, if_neg hg, ih]

theorem process_praises_notice_false (u : UserId) (msg : String)
    (clock : Nat → Timestamp) (remaining : Nat) (l : List UserId) :
    ∀ (d : Ledger) (n : Nat), n + l.length ≤ remaining →
      (process_praises u msg clock remaining l d n).2.2 = false := by
  induction l with
  | nil => intro d n _; rfl
  | cons m ms ih =>
    intro d n h
    simp only [List.length_cons] at h
    rw [process_praises]
    by_cases hm : m = u
    · rw [if_pos hm]
      exact ih d n (by omega)
    · rw [if_neg hm, if_neg (by omega)]
      exact ih _ (n + 1) (by omega)

theorem getUser_mem (d : Ledger) (u : UserId) (h : memberUser d u = true) :
    (u, getUser d u) ∈ d := by
  induction d with
  | nil => simp [memberUser] at h
  | cons e rest ih =>
    obtain ⟨k, ud⟩ := e
    by_cases hk : k = u
    · subst hk
      simp [getUser]
    · simp only [memberUser, List.any_cons, Bool.or_eq_true,
        decide_eq_true_eq] at h
      rcases h with h | h
      · exact absurd h hk
      · simp only [getUser, if_neg hk, List.mem_cons]
        exact Or.inr (ih h)

theorem handle_notice_false (d : Ledger) (u : UserId) (now : Timestamp)
    (clock : Nat → Timestamp) (mentions : List UserId) (msg : String)
    (pg : Nat) (pn : Bool) (d2 : Ledger)
    (hc : handle_hloppy_command d u now clock mentions msg
      = (.completed pg pn, d2)) : pn = false := by
  simp only [handle_hloppy_command] at hc
  split at hc
  · simp at hc
  · split at hc
    · simp at hc
    · split at hc
      · simp at hc
      · split at hc
        · simp at hc
        · rename_i hm hlim hlen hmsg
          simp only [Prod.mk.injEq, HandleResult.completed.injEq] at hc
          obtain ⟨⟨hpg, hpn⟩, hd⟩ := hc
          rw [← hpn]
          exact process_praises_notice_false u msg clock _ mentions d 0
            (by omega)

/-! ## Claim theorems -/

/-- C1: recording proceeds exactly when the requester's weekly given count
is strictly below `WEEKLY_PRAISE_LIMIT` and the number of parsed mentions is
at most `remaining = WEEKLY_PRAISE_LIMIT - weeklyGivenCount`: a requester at
or over the limit is rejected with the ledger unchanged, a mention list
longer than the remaining quota is rejected whole with the ledger unchanged
(all-or-nothing at this gate), completion implies both gate conditions held,
and when both hold (with a non-empty message) the handler proceeds to the
recording loop — in particular a single mention of another user from an
under-limit requester is admitted and recorded as one praise. -/
theorem claim_C1_quota_gate (d : Ledger) (u : UserId) (now : Timestamp)
    (clock : Nat → Timestamp) (mentions : List UserId) (msg : String)
    (hm : mentions ≠ []) :
    (WEEKLY_PRAISE_LIMIT ≤ get_user_weekly_praises d u now →
      handle_hloppy_command d u now clock mentions msg
        = (.overLimit (get_user_weekly_praises d u now), d)) ∧
    (get_user_weekly_praises d u now < WEEKLY_PRAISE_LIMIT →
      WEEKLY_PRAISE_LIMIT - get_user_weekly_praises d u now
          < mentions.length →
      handle_hloppy_command d u now clock mentions msg
        = (.tooManyMentions
            (WEEKLY_PRAISE_LIMIT - get_user_weekly_praises d u now), d)) ∧
    (∀ pg pn d2, handle_hloppy_command d u now clock mentions msg
        = (.completed pg pn, d2) →
      get_user_weekly_praises d u now < WEEKLY_PRAISE_LIMIT ∧
        mentions.length
          ≤ WEEKLY_PRAISE_LIMIT - get_user_weekly_praises d u now) ∧
    (get_user_weekly_praises d u now < WEEKLY_PRAISE_LIMIT →
      mentions.length
          ≤ WEEKLY_PRAISE_LIMIT - get_user_weekly_praises d u now →
      msg ≠ "" →
      handle_hloppy_command d u now clock mentions msg
        = (.completed
            (process_praises u msg clock
              (WEEKLY_PRAISE_LIMIT - get_user_weekly_praises d u now)
              mentions d 0).2.1
            (process_praises u msg clock
              (WEEKLY_PRAISE_LIMIT - get_user_weekly_praises d u now)
              mentions d 0).2.2,
           (process_praises u msg clock
              (WEEKLY_PRAISE_LIMIT - get_user_weekly_praises d u now)
              mentions d 0).1)) ∧
    (∀ v, v ≠ u → get_user_weekly_praises d u now < WEEKLY_PRAISE_LIMIT →
      msg ≠ "" →
      handle_hloppy_command d u now clock [v] msg
        = (.completed 1 false, add_praise d u v msg (clock 0))) := by
  refine ⟨?_, ?_, ?_, ?_, ?_⟩
  · intro h
    simp only [handle_hloppy_command]
    rw [if_neg hm, if_pos h]
  · intro h1 h2
    simp only [handle_hloppy_command]
    rw [if_neg hm, if_neg (by omega), if_pos h2]
  · intro pg pn d2 hc
    simp only [handle_hloppy_command] at hc
    split at hc
    · simp at hc
    · split at hc
      · simp at hc
      · split at hc
        · simp at hc
        · split at hc
          · simp at hc
          · rename_i h1 h2 h3 h4
            exact ⟨by omega, by omega⟩
  · intro h1 h2 h3
    simp only [handle_hloppy_command]
    rw [if_neg hm, if_neg (by omega), if_neg (by omega), if_neg h3]
  · intro v hv h1 h3
    simp only [handle_hloppy_command]
    rw [if_neg (by simp : ¬([v] : List UserId) = []),
      if_neg (by omega),
      if_neg (by simp only [List.length_cons, List.length_nil]; omega),
      if_neg h3, process_praises, if_neg hv, if_neg (by omega),
      process_praises]

/-- Witness for C1: a user with exactly three praises given since the most
recent Monday 00:00 is rejected whole; a user with two given can praise
exactly one more recipient — the single-mention request completes and
records the praise — but not two. -/
theorem claim_C1_quota_gate_witness :
    (["U9"] : List UserId) ≠ [] ∧
    WEEKLY_PRAISE_LIMIT ≤ get_user_weekly_praises
      [("U1", ⟨[], [⟨"U2", "m", 3⟩, ⟨"U3", "m", 4⟩, ⟨"U4", "m", 5⟩]⟩)]
      "U1" 5 ∧
    handle_hloppy_command
      [("U1", ⟨[], [⟨"U2", "m", 3⟩, ⟨"U3", "m", 4⟩, ⟨"U4", "m", 5⟩]⟩)]
      "U1" 5 (fun _ => 5) ["U9"] "great work"
      = (.overLimit 3,
         [("U1", ⟨[], [⟨"U2", "m", 3⟩, ⟨"U3", "m", 4⟩, ⟨"U4", "m", 5⟩]⟩)]) ∧
    handle_hloppy_command
      [("U1", ⟨[], [⟨"U2", "m", 3⟩, ⟨"U3", "m", 4⟩]⟩)]
      "U1" 5 (fun _ => 5) ["U8", "U9"] "great work"
      = (.tooManyMentions 1,
         [("U1", ⟨[], [⟨"U2", "m", 3⟩, ⟨"U3", "m", 4⟩]⟩)]) ∧
    handle_hloppy_command
      [("U1", ⟨[], [⟨"U2", "m", 3⟩, ⟨"U3", "m", 4⟩]⟩)]
      "U1" 5 (fun _ => 5) ["U9"] "great work"
      = (.completed 1 false,
         [("U1", ⟨[], [⟨"U2", "m", 3⟩, ⟨"U3", "m", 4⟩,
                       ⟨"U9", "great work", 5⟩]⟩),
          ("U9", ⟨[⟨"U1", "great work", 5⟩], []⟩)]) := by
  refine ⟨by decide, by decide, ?_, ?_, ?_⟩
  · exact (claim_C1_quota_gate
      [("U1", ⟨[], [⟨"U2", "m", 3⟩, ⟨"U3", "m", 4⟩, ⟨"U4", "m", 5⟩]⟩)]
      "U1" 5 (fun _ => 5) ["U9"] "great work" (by decide)).1 (by decide)
  · exact (claim_C1_quota_gate
      [("U1", ⟨[], [⟨"U2", "m", 3⟩, ⟨"U3", "m", 4⟩]⟩)]
      "U1" 5 (fun _ => 5) ["U8", "U9"] "great work" (by decide)).2.1
      (by decide) (by decide)
  · exact ((claim_C1_quota_gate
      [("U1", ⟨[], [⟨"U2", "m", 3⟩, ⟨"U3", "m", 4⟩]⟩)]
      "U1" 5 (fun _ => 5) ["U9"] "great work" (by decide)).2.2.2.2 "U9"
      (by decide) (by decide) (by decide)).trans (by decide)

/-- C2: on every reachable store state the mirror invariant I1 holds, and
`add_praise` both preserves it and establishes it by appending the two
mirrored entries with the same single timestamp. -/
theorem claim_C2_mirror_invariant (d : Ledger) (h : Reachable d) :
    SymmetricLedger d ∧
    ∀ fu tu m t,
      SymmetricLedger (add_praise d fu tu m t) ∧
      (getUser (add_praise d fu tu m t) tu).received
        = (getUser d tu).received ++ [⟨fu, m, t⟩] ∧
      (getUser (add_praise d fu tu m t) fu).given
        = (getUser d fu).given ++ [⟨tu, m, t⟩] := by
  refine ⟨reachable_symmetric d h, fun fu tu m t => ⟨?_, ?_, ?_⟩⟩
  · exact symmetric_add_praise d fu tu m t (reachable_symmetric d h)
  · rw [received_add_praise, if_pos rfl]
  · rw [given_add_praise, if_pos rfl]

/-- Witness for C2: the invariant holds in the state reached by one praise
from the empty store. -/
theorem claim_C2_mirror_invariant_witness :
    Reachable ([] : Ledger) ∧
    SymmetricLedger (add_praise [] "U1" "U2" "great work" 5) :=
  ⟨Reachable.empty,
   ((claim_C2_mirror_invariant [] Reachable.empty).2 "U1" "U2"
     "great work" 5).1⟩

/-- C3: the weekly count equals the number of `given` entries with timestamp
at or after the most recent Monday 00:00:00 (a day-aligned instant with
weekday Monday, at most one week before `now`), is 0 for an absent user, and
therefore entries timestamped before that boundary do not count. -/
theorem claim_C3_weekly_window (d : Ledger) (u : UserId) (now : Timestamp) :
    get_user_weekly_praises d u now
      = ((getUser d u).given.filter
          (fun p => decide (weekStart now ≤ p.timestamp))).length ∧
    (memberUser d u = false → get_user_weekly_praises d u now = 0) ∧
    weekStart now ≤ now ∧
    weekStart now % secondsPerDay = 0 ∧
    weekday (weekStart now) = 0 ∧
    now < weekStart now + 7 * secondsPerDay := by
  refine ⟨get_user_weekly_praises_eq_filter d u now, ?_,
    weekStart_le now, weekStart_mod_day now, weekday_weekStart now,
    lt_weekStart_add_week now⟩
  intro h
  unfold get_user_weekly_praises
  rw [h]
  rfl

/-- Witness for C3: an absent user counts 0; a praise timestamped before the
Monday boundary is not counted while one after it is. -/
theorem claim_C3_weekly_window_witness :
    memberUser ([] : Ledger) "U9" = false ∧
    get_user_weekly_praises [] "U9" 604900 = 0 ∧
    get_user_weekly_praises
      [("U1", ⟨[], [⟨"U2", "m", 604795⟩, ⟨"U3", "m", 604801⟩]⟩)]
      "U1" 604900 = 1 :=
  ⟨by decide,
   (claim_C3_weekly_window [] "U9" 604900).2.1 (by decide),
   by decide⟩

/-- C4: saving a ledger in which at least one user has a non-empty list and
re-reading it yields an equivalent ledger: exactly the original with the
all-empty users dropped (same events, same order), and dropping empty
entries is idempotent, so an all-empty entry read from storage behaves as if
the user were absent. -/
theorem claim_C4_save_load_roundtrip (d : Ledger)
    (h : ∃ e ∈ d, e.2.received ≠ [] ∨ e.2.given ≠ []) :
    load_data (.content (save_data d)) = dropEmpty d ∧
    dropEmpty (load_data (.content (save_data d))) = dropEmpty d := by
  refine ⟨load_data_save_data d, ?_⟩
  rw [load_data_save_data d, dropEmpty_idem]

/-- Witness for C4: a two-user ledger whose second user has two empty lists
round-trips to the ledger with only the first user. -/
theorem claim_C4_save_load_roundtrip_witness :
    (∃ e ∈ ([("U1", ⟨[⟨"U2", "m", 5⟩], []⟩), ("U3", ⟨[], []⟩)] : Ledger),
      e.2.received ≠ [] ∨ e.2.given ≠ []) ∧
    load_data (.content (save_data
        [("U1", ⟨[⟨"U2", "m", 5⟩], []⟩), ("U3", ⟨[], []⟩)]))
      = [("U1", ⟨[⟨"U2", "m", 5⟩], []⟩)] :=
  ⟨by decide,
   ((claim_C4_save_load_roundtrip
      [("U1", ⟨[⟨"U2", "m", 5⟩], []⟩), ("U3", ⟨[], []⟩)]
      (by decide)).1).trans (by decide)⟩

/-- C5: the ranking has one tuple per user of the universe (owners of a
non-empty entry united with every `from_user`/`to_user` occurring in any
entry), each tuple carries the user's received and given counts with
`totalScore = receivedCount + givenCount`, and the sequence is sorted in
descending order of `totalScore`. -/
theorem claim_C5_ranking_spec (d : Ledger) :
    ((get_sorted_users d).map Prod.fst).Perm (all_users d) ∧
    (all_users d).Nodup ∧
    (∀ v, v ∈ all_users d ↔ ∃ e ∈ d, contrib e v) ∧
    (∀ x ∈ get_sorted_users d,
      x.2.1 = receivedCount d x.1 ∧ x.2.2.1 = givenCount d x.1 ∧
        x.2.2.2 = x.2.1 + x.2.2.1) ∧
    (get_sorted_users d).Pairwise (fun a b => b.2.2.2 ≤ a.2.2.2) := by
  refine ⟨get_sorted_users_map_fst_perm d, nodup_all_users d,
    mem_all_users d, ?_, get_sorted_users_sorted d⟩
  intro x hx
  exact get_sorted_users_components d x hx

/-- Witness for C5: in the ledger where `U1` has received once from `U2`,
the ranking contains the tuple `(U1, 1, 0, 1)` and its total is the sum of
its received and given counts. -/
theorem claim_C5_ranking_spec_witness :
    ("U1", 1, 0, 1)
        ∈ get_sorted_users [("U1", ⟨[⟨"U2", "hi", 5⟩], []⟩)] ∧
    ((1 : Nat) = receivedCount [("U1", ⟨[⟨"U2", "hi", 5⟩], []⟩)] "U1" ∧
     (0 : Nat) = givenCount [("U1", ⟨[⟨"U2", "hi", 5⟩], []⟩)] "U1" ∧
     (1 : Nat) = 1 + 0) := by
  have hmem : (("U1", 1, 0, 1) : UserId × Nat × Nat × Nat)
      ∈ get_sorted_users [("U1", ⟨[⟨"U2", "hi", 5⟩], []⟩)] :=
    mem_get_sorted_users [("U1", ⟨[⟨"U2", "hi", 5⟩], []⟩)] "U1" (by decide)
  exact ⟨hmem,
    (claim_C5_ranking_spec [("U1", ⟨[⟨"U2", "hi", 5⟩], []⟩)]).2.2.2.1
      ("U1", 1, 0, 1) hmem⟩

/-- C6 counterexample: the claim "the load's parsing step fails with
StorageError whenever the backing file exists but is malformed (not the
expected JSON document shape)" is false of the code.  The document mapping
`U1` to a `received` entry whose `from_user` is the number 5 violates the
storage schema (`wellFormed` is false), yet the load loop raises nothing:
it stores the number as-is, so the value-faithful parse succeeds and the
load yields a non-empty in-memory ledger — not a caught error, and not the
empty state. -/
theorem claim_C6_malformed_error_counterexample :
    wellFormed (Json.obj [("U1", .obj [("received",
        .arr [.obj [("from_user", .num 5), ("message", .str "m"),
                    ("timestamp", .str "7")]])])]) = false ∧
    (loadSnapshotRaw (Json.obj [("U1", .obj [("received",
        .arr [.obj [("from_user", .num 5), ("message", .str "m"),
                    ("timestamp", .str "7")]])])])).isOk = true ∧
    (load_data_raw (.content (Json.obj [("U1", .obj [("received",
        .arr [.obj [("from_user", .num 5), ("message", .str "m"),
                    ("timestamp", .str "7")]])])]))).length = 1 :=
  ⟨by decide, by decide, by decide⟩

/-- C6 (amended): the snapshot-parsing step of `load_data` fails — raising
the error the `except` handler then catches — exactly on the documents the
load loop cannot process (`acceptedDocument` is false), a strict subset of
the documents violating the storage schema: schema deviations confined to
the values of `from_user`/`to_user`/`message`, or a `received`/`given`
given as an empty string or empty object, are loaded without error. -/
theorem claim_C6_parse_error_iff_not_accepted (j : Json) :
    (∃ e, loadSnapshotRaw j = Except.error e) ↔ acceptedDocument j = false :=
  loadSnapshotRaw_error_iff j

/-- Witness for C6: a document whose single entry carries an unparseable
timestamp string is not accepted and fails to parse. -/
theorem claim_C6_parse_error_iff_not_accepted_witness :
    acceptedDocument (.obj [("U1", .obj [("received",
        .arr [.obj [("from_user", .str "U2"), ("message", .str "m"),
                    ("timestamp", .str "oops")]])])]) = false ∧
    ∃ e, loadSnapshotRaw (.obj [("U1", .obj [("received",
        .arr [.obj [("from_user", .str "U2"), ("message", .str "m"),
                    ("timestamp", .str "oops")]])])]) = Except.error e :=
  ⟨by decide,
   (claim_C6_parse_error_iff_not_accepted _).mpr (by decide)⟩

/-- C7: loading from a missing file, an unreadable file, or a corrupt
document (one the load loop cannot process) yields the empty ledger;
`load_data_raw` is a total function, so no exception propagates to the
caller. -/
theorem claim_C7_load_fail_open :
    load_data_raw .missing = [] ∧
    load_data_raw .unreadable = [] ∧
    ∀ j, acceptedDocument j = false → load_data_raw (.content j) = [] :=
  ⟨rfl, rfl, fun j h => load_data_raw_not_accepted j h⟩

/-- Witness for C7: a non-empty non-object document cannot be processed and
loads as the empty ledger. -/
theorem claim_C7_load_fail_open_witness :
    acceptedDocument (.str "oops") = false ∧
    load_data_raw (.content (.str "oops")) = [] :=
  ⟨by decide, claim_C7_load_fail_open.2.2 (.str "oops") (by decide)⟩

/-- C8: in the per-mention loop a mention of the requester is silently
skipped — the run is identical (final ledger, quota counter, notice flag) to
the run on the mention list with self-mentions removed, and a self-mention
at the head is simply dropped. -/
theorem claim_C8_self_mentions_skipped (u : UserId) (msg : String)
    (clock : Nat → Timestamp) (remaining : Nat) (l : List UserId)
    (d : Ledger) (n : Nat) :
    process_praises u msg clock remaining l d n
      = process_praises u msg clock remaining
          (l.filter (fun m => decide (m ≠ u))) d n ∧
    process_praises u msg clock remaining (u :: l) d n
      = process_praises u msg clock remaining l d n := by
  refine ⟨process_praises_filter_self u msg clock remaining l d n, ?_⟩
  rw [process_praises, if_pos rfl]

/-- C9: under the pre-loop gate's precondition (mention count at most the
remaining quota, which is at least 1) the in-loop guard is redundant: the
partial-completion notice is never emitted, neither in the raw loop nor in
any completed invocation of the command handler. -/
theorem claim_C9_partial_guard_redundant (d : Ledger) (u : UserId)
    (msg : String) (clock : Nat → Timestamp) (remaining : Nat)
    (mentions : List UserId) (h1 : 1 ≤ remaining)
    (h2 : mentions.length ≤ remaining) :
    (process_praises u msg clock remaining mentions d 0).2.2 = false ∧
    ∀ (d0 : Ledger) (now : Timestamp) (pg : Nat) (pn : Bool) (d2 : Ledger),
      handle_hloppy_command d0 u now clock mentions msg
          = (.completed pg pn, d2) → pn = false := by
  refine ⟨process_praises_notice_false u msg clock remaining mentions d 0
    (by omega), ?_⟩
  intro d0 now pg pn d2 hc
  exact handle_notice_false d0 u now clock mentions msg pg pn d2 hc

/-- Witness for C9: one mention with two praises remaining completes without
the partial-completion notice. -/
theorem claim_C9_partial_guard_redundant_witness :
    1 ≤ 2 ∧ (["U2"] : List UserId).length ≤ 2 ∧
    (process_praises "U1" "hi" (fun _ => 0) 2 ["U2"] [] 0).2.2 = false :=
  ⟨by decide, by decide,
   (claim_C9_partial_guard_redundant [] "U1" "hi" (fun _ => 0) 2 ["U2"]
     (by decide) (by decide)).1⟩

/-- C10: the store performs no self-praise validation: `add_praise u u m t`
appends one entry to `u`'s own `received` list and one to `u`'s own `given`
list with the same timestamp, so the lifetime received count and the weekly
given count each increase by 1 and `u`'s ranking total increases by 2. -/
theorem claim_C10_store_allows_self_praise (d : Ledger) (u : UserId)
    (m : String) (t : Timestamp) :
    (getUser (add_praise d u u m t) u).received
      = (getUser d u).received ++ [⟨u, m, t⟩] ∧
    (getUser (add_praise d u u m t) u).given
      = (getUser d u).given ++ [⟨u, m, t⟩] ∧
    get_praise_count (add_praise d u u m t) u = get_praise_count d u + 1 ∧
    get_user_weekly_praises (add_praise d u u m t) u t
      = get_user_weekly_praises d u t + 1 ∧
    ∃ r g, (u, r, g, r + g) ∈ get_sorted_users (add_praise d u u m t) ∧
      r + g = (getUser d u).received.length
        + (getUser d u).given.length + 2 := by
  have hrecv : (getUser (add_praise d u u m t) u).received
      = (getUser d u).received ++ [⟨u, m, t⟩] := by
    rw [received_add_praise, if_pos rfl]
  have hgiven : (getUser (add_praise d u u m t) u).given
      = (getUser d u).given ++ [⟨u, m, t⟩] := by
    rw [given_add_praise, if_pos rfl]
  have hmem : memberUser (add_praise d u u m t) u = true := by
    rw [memberUser_add_praise]
    simp
  refine ⟨hrecv, hgiven, ?_, ?_, ?_⟩
  · rw [get_praise_count_add_praise, if_pos rfl]
  · rw [get_user_weekly_praises_add_praise,
      if_pos ⟨rfl, weekStart_le t⟩]
  · refine ⟨receivedCount (add_praise d u u m t) u,
      givenCount (add_praise d u u m t) u, ?_, ?_⟩
    · apply mem_get_sorted_users
      rw [mem_all_users]
      refine ⟨(u, getUser (add_praise d u u m t) u),
        getUser_mem _ u hmem, Or.inl ⟨Or.inr ?_, rfl⟩⟩
      rw [hgiven]
      simp
    · have hr : receivedCount (add_praise d u u m t) u
          = (getUser d u).received.length + 1 := by
        unfold receivedCount
        rw [if_pos hmem, hrecv]
        simp
      have hg : givenCount (add_praise d u u m t) u
          = (getUser d u).given.length + 1 := by
        unfold givenCount
        rw [if_pos hmem, hgiven]
        simp
      rw [hr, hg]
      omega

end Hloppy
